import Mathlib

/-
Verification of the registration subsystem (src/backend/registration):
models.py, service.py and the membership-record layer of repositories.py
are embedded as executable Lean definitions, and the specified properties
are proved about them.
-/

/-- Error kinds of `src/backend/registration/exceptions.py`. -/
inductive RegError where
  | validationError
  | duplicateUser
  | eventFull
  | alreadyRegistered
  | notRegistered
  | entityNotFound
  deriving DecidableEq

/-- ASCII whitespace characters stripped by Python's `str.strip()`. -/
def isPyWs (c : Char) : Bool :=
  c = ' ' || c = '\t' || c = '\n' || c = '\r' || c = '\x0b' || c = '\x0c'

/-- Python `str.strip()` on the character list: drop leading and trailing whitespace. -/
def pyStrip (l : List Char) : List Char :=
  ((l.dropWhile isPyWs).reverse.dropWhile isPyWs).reverse

/-- `User` dataclass of models.py. -/
structure User where
  user_id : String
  name : String
  deriving DecidableEq

/-- `User.__post_init__` (models.py lines 20-25): construction fails with
ValidationError when `not user_id or not user_id.strip()`, likewise for `name`. -/
def mkUser (user_id name : String) : Except RegError User :=
  if user_id.data.isEmpty || (pyStrip user_id.data).isEmpty then
    .error .validationError
  else if name.data.isEmpty || (pyStrip name.data).isEmpty then
    .error .validationError
  else
    .ok ⟨user_id, name⟩

/-- `Event` dataclass of models.py. Python's unbounded `int` capacity is `Int`. -/
structure Event where
  event_id : String
  name : String
  capacity : Int
  waitlist_enabled : Bool
  registered_users : List String
  waitlist : List String
  deriving DecidableEq

/-- `Event.__post_init__` (models.py lines 47-50): the only validation is
`capacity <= 0`; the membership lists are accepted unchecked. -/
def mkEventFull (event_id name : String) (capacity : Int) (waitlist_enabled : Bool)
    (registered_users waitlist : List String) : Except RegError Event :=
  if capacity ≤ 0 then .error .validationError
  else .ok ⟨event_id, name, capacity, waitlist_enabled, registered_users, waitlist⟩

/-- Event construction with the dataclass defaults (empty membership lists),
as used by `RegistrationService.create_event`. -/
def mkEvent (event_id name : String) (capacity : Int) (waitlist_enabled : Bool) :
    Except RegError Event :=
  mkEventFull event_id name capacity waitlist_enabled [] []

/-- `Event.is_full` (models.py line 58): `len(registered_users) >= capacity`. -/
def Event.is_full (e : Event) : Bool :=
  decide ((e.registered_users.length : Int) ≥ e.capacity)

/-- `Event.has_available_capacity` (models.py line 66): `len(registered_users) < capacity`. -/
def Event.has_available_capacity (e : Event) : Bool :=
  decide ((e.registered_users.length : Int) < e.capacity)

/-- `RegistrationResult` dataclass of service.py. -/
structure RegistrationResult where
  status : String
  message : String
  deriving DecidableEq

/-- One gateway write issued by the service through `EventRepository` /
`UserRepository` (repositories.py): the service's mutation calls, in order. -/
inductive GWrite where
  | putUser (user_id : String)
  | putEventMeta (event_id : String)
  | addRegistration (event_id user_id : String)
  | removeRegistration (event_id user_id : String)
  | addToWaitlist (event_id user_id : String) (position : Nat)
  | removeFromWaitlist (event_id user_id : String)
  | updateEvent (event_id : String)
  deriving DecidableEq

/-- In-memory projection of the persisted state the service reads and writes:
the set of existing user ids and the stored events keyed by event id. -/
structure SysState where
  users : List String
  events : List (String × Event)
  deriving DecidableEq

/-- `EventRepository.get` at the service's level of abstraction: look the event up. -/
def findEvent (s : SysState) (event_id : String) : Option Event :=
  (s.events.find? fun p => p.1 == event_id).map (·.2)

/-- Store an updated event under its id. -/
def putEvent (s : SysState) (event_id : String) (e : Event) : SysState :=
  { s with events := s.events.map fun p => if p.1 == event_id then (p.1, e) else p }

/-- `RegistrationService.create_user` (service.py lines 42-62): duplicate check,
then validating construction, then the repository write. -/
def create_user (s : SysState) (user_id name : String) :
    Except RegError User × SysState × List GWrite :=
  if user_id ∈ s.users then (.error .duplicateUser, s, [])
  else
    match mkUser user_id name with
    | .error e => (.error e, s, [])
    | .ok u => (.ok u, { s with users := s.users ++ [user_id] }, [.putUser user_id])

/-- `RegistrationService.create_event` (service.py lines 64-86): validating
construction then the repository write (no duplicate check in the source). -/
def create_event (s : SysState) (event_id name : String) (capacity : Int)
    (waitlist_enabled : Bool) : Except RegError Event × SysState × List GWrite :=
  match mkEvent event_id name capacity waitlist_enabled with
  | .error e => (.error e, s, [])
  | .ok ev =>
      (.ok ev, { s with events := (s.events.filter fun p => p.1 != event_id) ++ [(event_id, ev)] },
       [.putEventMeta event_id])

/-- `RegistrationService.register_user` (service.py lines 88-140), with the
gateway writes it issues recorded in order. -/
def register_user (s : SysState) (user_id event_id : String) :
    Except RegError RegistrationResult × SysState × List GWrite :=
  if user_id ∈ s.users then
    match findEvent s event_id with
    | none => (.error .entityNotFound, s, [])
    | some event =>
      if user_id ∈ event.registered_users then (.error .alreadyRegistered, s, [])
      else if user_id ∈ event.waitlist then (.error .alreadyRegistered, s, [])
      else if event.has_available_capacity then
        (.ok ⟨"registered", "User " ++ user_id ++ " successfully registered for event " ++ event_id⟩,
         putEvent s event_id { event with registered_users := event.registered_users ++ [user_id] },
         [.addRegistration event_id user_id, .updateEvent event_id])
      else if event.waitlist_enabled then
        (.ok ⟨"waitlisted", "Event is full. User " ++ user_id ++ " added to waitlist for event " ++ event_id⟩,
         putEvent s event_id { event with waitlist := event.waitlist ++ [user_id] },
         [.addToWaitlist event_id user_id ((event.waitlist ++ [user_id]).length - 1),
          .updateEvent event_id])
      else (.error .eventFull, s, [])
  else (.error .entityNotFound, s, [])

/-- The reindex loop of `unregister_user` (service.py lines 172-175 and 185-188):
for each remaining waitlist member in order, remove its record and re-add it at
its shifted position. -/
def reindexWrites (event_id : String) : List String → Nat → List GWrite
  | [], _ => []
  | u :: rest, i =>
      .removeFromWaitlist event_id u :: .addToWaitlist event_id u i ::
        reindexWrites event_id rest (i + 1)

/-- `RegistrationService.unregister_user` (service.py lines 142-194), with the
gateway writes it issues recorded in order. -/
def unregister_user (s : SysState) (user_id event_id : String) :
    Except RegError Unit × SysState × List GWrite :=
  match findEvent s event_id with
  | none => (.error .entityNotFound, s, [])
  | some event =>
    if user_id ∈ event.registered_users then
      match event.waitlist with
      | [] =>
          (.ok (),
           putEvent s event_id { event with registered_users := event.registered_users.erase user_id },
           [.removeRegistration event_id user_id, .updateEvent event_id])
      | promoted :: rest =>
          (.ok (),
           putEvent s event_id
             { event with
                 registered_users := event.registered_users.erase user_id ++ [promoted],
                 waitlist := rest },
           [.removeRegistration event_id user_id, .removeFromWaitlist event_id promoted,
            .addRegistration event_id promoted]
             ++ reindexWrites event_id rest 0 ++ [.updateEvent event_id])
    else if user_id ∈ event.waitlist then
      (.ok (),
       putEvent s event_id { event with waitlist := event.waitlist.erase user_id },
       .removeFromWaitlist event_id user_id ::
         reindexWrites event_id (event.waitlist.erase user_id) 0 ++ [.updateEvent event_id])
    else (.error .notRegistered, s, [])

/-- `RegistrationService.get_user_registrations` (service.py lines 196-205). -/
def get_user_registrations (s : SysState) (user_id : String) :
    Except RegError (List Event) × SysState × List GWrite :=
  (.ok ((s.events.filter fun p => p.2.registered_users.contains user_id).map (·.2)), s, [])

/-- `RegistrationService.get_user_waitlists` (service.py lines 207-216). -/
def get_user_waitlists (s : SysState) (user_id : String) :
    Except RegError (List Event) × SysState × List GWrite :=
  (.ok ((s.events.filter fun p => p.2.waitlist.contains user_id).map (·.2)), s, [])

/-- `RegistrationService.get_event_registrations` (service.py lines 218-234). -/
def get_event_registrations (s : SysState) (event_id : String) :
    Except RegError (List String) × SysState × List GWrite :=
  match findEvent s event_id with
  | none => (.error .entityNotFound, s, [])
  | some event => (.ok event.registered_users, s, [])

deriving instance DecidableEq for Except

/-- The per-event waitlist membership records in the key-value store: one
record `(user_id, position)` per waitlisted user (repositories.py `WAIT#` items). -/
def wlRecordsFrom : List String → Nat → List (String × Nat)
  | [], _ => []
  | u :: rest, i => (u, i) :: wlRecordsFrom rest (i + 1)

/-- Records of a waitlist whose positions start at 0, as `EventRepository.create`
and the reindex loops materialize them (Python `enumerate`). -/
def wlRecords (l : List String) : List (String × Nat) :=
  wlRecordsFrom l 0

/-- Effect of one gateway write on the stored waitlist membership records:
`_remove_from_waitlist` scans and deletes the first record of that user
(repositories.py lines 319-339); `_add_to_waitlist` upserts a record keyed by
(position, user) (lines 283-303); other writes do not touch these records. -/
def applyWaitWrite (store : List (String × Nat)) : GWrite → List (String × Nat)
  | .removeFromWaitlist _ u => store.eraseP fun r => r.1 == u
  | .addToWaitlist _ u p => if (u, p) ∈ store then store else store ++ [(u, p)]
  | _ => store

/-- Apply a sequence of gateway writes to the waitlist membership records. -/
def applyWaitWrites (store : List (String × Nat)) (ws : List GWrite) : List (String × Nat) :=
  ws.foldl applyWaitWrite store

/-- Scenario state for the FIFO-promotion property: users A, B, C exist and
event E has capacity 1 with the waitlist enabled. -/
def fifoState0 : SysState :=
  ⟨["A", "B", "C"],
   [("E", { event_id := "E", name := "Gala", capacity := 1, waitlist_enabled := true,
            registered_users := [], waitlist := [] })]⟩

def fifoReg1 : Except RegError RegistrationResult × SysState × List GWrite :=
  register_user fifoState0 "A" "E"

def fifoReg2 : Except RegError RegistrationResult × SysState × List GWrite :=
  register_user fifoReg1.2.1 "B" "E"

def fifoReg3 : Except RegError RegistrationResult × SysState × List GWrite :=
  register_user fifoReg2.2.1 "C" "E"

def fifoUnreg : Except RegError Unit × SysState × List GWrite :=
  unregister_user fifoReg3.2.1 "A" "E"

/-- C2: with capacity 1 and the waitlist enabled, A, B, C registering in that
order yields A `registered` and B, C `waitlisted` with B ahead of C; then
unregistering A promotes B into `registered_users`, the waitlist becomes
`["C"]`, and C's stored waitlist record carries position 0. -/
theorem c2_fifo_promotion :
    fifoReg1.1.map (·.status) = .ok "registered" ∧
    fifoReg2.1.map (·.status) = .ok "waitlisted" ∧
    fifoReg3.1.map (·.status) = .ok "waitlisted" ∧
    findEvent fifoReg3.2.1 "E" =
      some { event_id := "E", name := "Gala", capacity := 1, waitlist_enabled := true,
             registered_users := ["A"], waitlist := ["B", "C"] } ∧
    fifoUnreg.1 = .ok () ∧
    findEvent fifoUnreg.2.1 "E" =
      some { event_id := "E", name := "Gala", capacity := 1, waitlist_enabled := true,
             registered_users := ["B"], waitlist := ["C"] } ∧
    applyWaitWrites []
      (fifoReg1.2.2 ++ fifoReg2.2.2 ++ fifoReg3.2.2 ++ fifoUnreg.2.2) = [("C", 0)] := by
  decide

/-- An event that the model constructor accepts although it holds more
registered users than its capacity. -/
def overfullEvent : Event :=
  { event_id := "E", name := "Gala", capacity := 1, waitlist_enabled := false,
    registered_users := ["a", "b"], waitlist := [] }

/-- C4 counterexample: `overfullEvent` is produced by Event construction, its
`is_full` is true, yet `len(registered_users) == capacity` is false — so
`is_full` is not equivalent to `len(registered_users) == capacity`. -/
theorem c4_is_full_counterexample :
    mkEventFull "E" "Gala" 1 false ["a", "b"] [] = .ok overfullEvent ∧
    overfullEvent.is_full = true ∧
    ¬ ((overfullEvent.registered_users.length : Int) = overfullEvent.capacity) := by
  decide

/-- C4 as amended: for every event, `is_full` is true exactly when
`len(registered_users) >= capacity` (the source uses `>=`, not `==`), and
`has_available_capacity` is the negation of `is_full`. -/
theorem c4_is_full_amended (e : Event) :
    (e.is_full = true ↔ (e.registered_users.length : Int) ≥ e.capacity) ∧
    e.has_available_capacity = !e.is_full := by
  constructor
  · simp [Event.is_full]
  · by_cases h : (e.registered_users.length : Int) < e.capacity
    · simp [Event.is_full, Event.has_available_capacity, h, not_le.mpr h]
    · simp [Event.is_full, Event.has_available_capacity, h, not_lt.mp h]

/-- A string all of whose characters are Python whitespace strips to nothing. -/
lemma pyStrip_eq_nil_of_ws {l : List Char} (h : ∀ c ∈ l, isPyWs c = true) :
    pyStrip l = [] := by
  unfold pyStrip
  rw [List.dropWhile_eq_nil_iff.mpr h]
  rfl

/-- C9: blank (empty or all-whitespace) `user_id` or `name` makes User
construction fail with ValidationError, and non-positive capacity makes Event
construction fail with ValidationError; no value is produced in either case. -/
theorem c9_validation (user_id name event_id ename : String) (capacity : Int)
    (wl : Bool) (regs waits : List String) :
    ((user_id = "" ∨ ∀ c ∈ user_id.data, isPyWs c = true) →
      mkUser user_id name = .error .validationError) ∧
    ((name = "" ∨ ∀ c ∈ name.data, isPyWs c = true) →
      mkUser user_id name = .error .validationError) ∧
    (capacity ≤ 0 →
      mkEventFull event_id ename capacity wl regs waits = .error .validationError) := by
  refine ⟨fun hu => ?_, fun hn => ?_, fun hc => ?_⟩
  · have hstrip : pyStrip user_id.data = [] := by
      rcases hu with h | h
      · subst h; rfl
      · exact pyStrip_eq_nil_of_ws h
    unfold mkUser
    rw [if_pos]
    simp [hstrip]
  · have hstrip : pyStrip name.data = [] := by
      rcases hn with h | h
      · subst h; rfl
      · exact pyStrip_eq_nil_of_ws h
    unfold mkUser
    by_cases h1 : (user_id.data.isEmpty || (pyStrip user_id.data).isEmpty) = true
    · rw [if_pos h1]
    · rw [if_neg h1, if_pos]
      simp [hstrip]
  · unfold mkEventFull
    rw [if_pos hc]

/-- C9 witness: a whitespace-only user id, a blank name, and capacity 0 are
all rejected. -/
theorem c9_validation_witness :
    (" " = "" ∨ ∀ c ∈ (" " : String).data, isPyWs c = true) ∧
    ("" = "" ∨ ∀ c ∈ ("" : String).data, isPyWs c = true) ∧
    ((0 : Int) ≤ 0) ∧
    mkUser " " "Ada" = .error .validationError ∧
    mkUser "u1" "" = .error .validationError ∧
    mkEventFull "E" "Gala" 0 true [] [] = .error .validationError :=
  ⟨by decide, by decide, by decide,
   (c9_validation " " "Ada" "x" "y" 1 true [] []).1 (by decide),
   (c9_validation "u1" "" "x" "y" 1 true [] []).2.1 (by decide),
   (c9_validation "a" "b" "E" "Gala" 0 true [] []).2.2 (by decide)⟩

/-- C10: Event construction checks only that capacity is positive — any
`registered_users` and `waitlist` lists are accepted unchanged, so none of the
spec's four event invariants (capacity bound, disjointness, no duplicates,
waitlist empty when disabled) is enforced at construction. -/
theorem c10_no_invariant_checks (event_id name : String) (capacity : Int)
    (waitlist_enabled : Bool) (regs waits : List String) (hc : 0 < capacity) :
    mkEventFull event_id name capacity waitlist_enabled regs waits =
      .ok ⟨event_id, name, capacity, waitlist_enabled, regs, waits⟩ := by
  unfold mkEventFull
  rw [if_neg (by omega)]

/-- C10 witness: an event whose lists break all four invariants (over
capacity, duplicate inside a list, overlap between lists, waitlist non-empty
while disabled) is constructed successfully. -/
theorem c10_no_invariant_checks_witness :
    (0 : Int) < 1 ∧
    mkEventFull "E" "Gala" 1 false ["a", "b", "a"] ["a", "c"] =
      .ok ⟨"E", "Gala", 1, false, ["a", "b", "a"], ["a", "c"]⟩ :=
  ⟨by decide, c10_no_invariant_checks "E" "Gala" 1 false ["a", "b", "a"] ["a", "c"] (by decide)⟩

/-- C5: given the user and the event both exist, `register_user` fails with
AlreadyRegistered exactly when the user is already in `registered_users` or in
the `waitlist`; and when the user is in neither list, capacity is exhausted and
the waitlist is disabled, it fails with EventFull. -/
theorem c5_register_errors (s : SysState) (u eid : String) (ev : Event)
    (hu : u ∈ s.users) (hev : findEvent s eid = some ev) :
    ((register_user s u eid).1 = .error .alreadyRegistered ↔
      u ∈ ev.registered_users ∨ u ∈ ev.waitlist) ∧
    (u ∉ ev.registered_users → u ∉ ev.waitlist →
      ev.has_available_capacity = false → ev.waitlist_enabled = false →
      (register_user s u eid).1 = .error .eventFull) := by
  constructor
  · by_cases h1 : u ∈ ev.registered_users
    · simp [register_user, hu, hev, h1]
    · by_cases h2 : u ∈ ev.waitlist
      · simp [register_user, hu, hev, h1, h2]
      · cases hc : ev.has_available_capacity <;> cases hw : ev.waitlist_enabled <;>
          simp [register_user, hu, hev, h1, h2, hc, hw]
  · intro h1 h2 h3 h4
    simp [register_user, hu, hev, h1, h2, h3, h4]

/-- C5 witness: with event E full at capacity 1 and no waitlist, a second,
distinct user B is rejected with EventFull, and B is reported
AlreadyRegistered exactly never (B is in neither list). -/
theorem c5_register_errors_witness :
    ("B" : String) ∈ (["A", "B"] : List String) ∧
    findEvent ⟨["A", "B"], [("E", ⟨"E", "N", 1, false, ["A"], []⟩)]⟩ "E" =
      some ⟨"E", "N", 1, false, ["A"], []⟩ ∧
    (¬ (("B" : String) ∈ (["A"] : List String) ∨ ("B" : String) ∈ ([] : List String))) ∧
    (register_user ⟨["A", "B"], [("E", ⟨"E", "N", 1, false, ["A"], []⟩)]⟩ "B" "E").1 =
      .error .eventFull := by
  have h := c5_register_errors ⟨["A", "B"], [("E", ⟨"E", "N", 1, false, ["A"], []⟩)]⟩
    "B" "E" ⟨"E", "N", 1, false, ["A"], []⟩ (by decide) (by decide)
  exact ⟨by decide, by decide, by decide, h.2 (by decide) (by decide) (by decide) (by decide)⟩

/-- C6: `unregister_user` fails with EntityNotFound exactly when the event is
absent; it never consults the user store (dropping all users gives the same
outcome); and when the event exists it fails with NotRegistered exactly when
the user is in neither `registered_users` nor the `waitlist`. -/
theorem c6_unregister_errors (s : SysState) (u eid : String) (ev : Event) :
    ((unregister_user s u eid).1 = .error .entityNotFound ↔ findEvent s eid = none) ∧
    ((unregister_user s u eid).1 = (unregister_user ⟨[], s.events⟩ u eid).1) ∧
    (findEvent s eid = some ev →
      ((unregister_user s u eid).1 = .error .notRegistered ↔
        u ∉ ev.registered_users ∧ u ∉ ev.waitlist)) := by
  have hsame : findEvent ⟨[], s.events⟩ eid = findEvent s eid := rfl
  refine ⟨?_, ?_, ?_⟩
  · cases hfe : findEvent s eid with
    | none => simp [unregister_user, hfe]
    | some ev' =>
        by_cases h1 : u ∈ ev'.registered_users
        · cases hw : ev'.waitlist <;> simp [unregister_user, hfe, h1, hw]
        · by_cases h2 : u ∈ ev'.waitlist <;> simp [unregister_user, hfe, h1, h2]
  · cases hfe : findEvent s eid with
    | none => simp [unregister_user, hfe, hsame]
    | some ev' =>
        by_cases h1 : u ∈ ev'.registered_users
        · cases hw : ev'.waitlist <;> simp [unregister_user, hfe, hsame, h1, hw]
        · by_cases h2 : u ∈ ev'.waitlist <;> simp [unregister_user, hfe, hsame, h1, h2]
  · intro hfe
    by_cases h1 : u ∈ ev.registered_users
    · cases hw : ev.waitlist <;> simp [unregister_user, hfe, h1, hw]
    · by_cases h2 : u ∈ ev.waitlist <;> simp [unregister_user, hfe, h1, h2]

/-- C6 witness: for a state where event E exists but user X is in neither
list, unregistering X fails with NotRegistered and not with EntityNotFound,
even though X is not a known user. -/
theorem c6_unregister_errors_witness :
    findEvent ⟨["A"], [("E", ⟨"E", "N", 2, true, ["A"], []⟩)]⟩ "E" =
      some ⟨"E", "N", 2, true, ["A"], []⟩ ∧
    (("X" : String) ∉ (["A"] : List String) ∧ ("X" : String) ∉ ([] : List String)) ∧
    (unregister_user ⟨["A"], [("E", ⟨"E", "N", 2, true, ["A"], []⟩)]⟩ "X" "E").1 =
      .error .notRegistered := by
  have h := c6_unregister_errors ⟨["A"], [("E", ⟨"E", "N", 2, true, ["A"], []⟩)]⟩
    "X" "E" ⟨"E", "N", 2, true, ["A"], []⟩
  exact ⟨by decide, by decide, (h.2.2 (by decide)).mpr (by decide)⟩

/-- One invocation of a Registration Engine operation (service.py public API). -/
inductive ServiceCall where
  | createUser (user_id name : String)
  | createEvent (event_id name : String) (capacity : Int) (waitlist_enabled : Bool)
  | register (user_id event_id : String)
  | unregister (user_id event_id : String)
  | userRegistrations (user_id : String)
  | userWaitlists (user_id : String)
  | eventRegistrations (event_id : String)

/-- The successful payload of a service call. -/
inductive CallResult where
  | user (u : User)
  | event (e : Event)
  | reg (r : RegistrationResult)
  | done
  | events (l : List Event)
  | names (l : List String)
  deriving DecidableEq

/-- Repackage an operation's outcome under a common payload type, leaving the
resulting state and write log untouched. -/
def mapResult {α : Type} (f : α → CallResult)
    (t : Except RegError α × SysState × List GWrite) :
    Except RegError CallResult × SysState × List GWrite :=
  (t.1.map f, t.2.1, t.2.2)

/-- Dispatch one service call. -/
def runCall (s : SysState) : ServiceCall → Except RegError CallResult × SysState × List GWrite
  | .createUser uid n => mapResult .user (create_user s uid n)
  | .createEvent eid n cap wl => mapResult .event (create_event s eid n cap wl)
  | .register uid eid => mapResult .reg (register_user s uid eid)
  | .unregister uid eid => mapResult (fun _ => .done) (unregister_user s uid eid)
  | .userRegistrations uid => mapResult .events (get_user_registrations s uid)
  | .userWaitlists uid => mapResult .events (get_user_waitlists s uid)
  | .eventRegistrations eid => mapResult .names (get_event_registrations s eid)

lemma create_user_error {s : SysState} {uid n : String} {err : RegError}
    (h : (create_user s uid n).1 = .error err) : (create_user s uid n).2 = (s, []) := by
  revert h
  unfold create_user
  repeat' first
    | rfl
    | (intro h; rfl)
    | split
    | (intro h; simp at h)

lemma create_event_error {s : SysState} {eid n : String} {cap : Int} {wl : Bool} {err : RegError}
    (h : (create_event s eid n cap wl).1 = .error err) :
    (create_event s eid n cap wl).2 = (s, []) := by
  revert h
  unfold create_event
  repeat' first
    | rfl
    | (intro h; rfl)
    | split
    | (intro h; simp at h)

lemma register_user_error {s : SysState} {u eid : String} {err : RegError}
    (h : (register_user s u eid).1 = .error err) : (register_user s u eid).2 = (s, []) := by
  revert h
  unfold register_user
  repeat' first
    | rfl
    | (intro h; rfl)
    | split
    | (intro h; simp at h)

lemma unregister_user_error {s : SysState} {u eid : String} {err : RegError}
    (h : (unregister_user s u eid).1 = .error err) : (unregister_user s u eid).2 = (s, []) := by
  revert h
  unfold unregister_user
  repeat' first
    | rfl
    | (intro h; rfl)
    | split
    | (intro h; simp at h)

lemma event_registrations_error {s : SysState} {eid : String} {err : RegError}
    (h : (get_event_registrations s eid).1 = .error err) :
    (get_event_registrations s eid).2 = (s, []) := by
  revert h
  unfold get_event_registrations
  repeat' first
    | rfl
    | (intro h; rfl)
    | split
    | (intro h; simp at h)

lemma map_error_of_mapResult {α : Type} {f : α → CallResult} {err : RegError}
    {t : Except RegError α × SysState × List GWrite}
    (h : (mapResult f t).1 = .error err) : t.1 = .error err := by
  cases ht : t.1 <;> simp [mapResult, ht, Except.map] at h ⊢
  exact h

/-- C7: any Registration Engine operation that fails with a domain error
leaves the persisted state exactly as it was and issues no gateway write. -/
theorem c7_error_leaves_state (s : SysState) (c : ServiceCall) (err : RegError)
    (h : (runCall s c).1 = .error err) :
    (runCall s c).2.1 = s ∧ (runCall s c).2.2 = [] := by
  cases c with
  | createUser uid n =>
      have := create_user_error (map_error_of_mapResult h)
      simp only [runCall, mapResult] at *
      simp [this]
  | createEvent eid n cap wl =>
      have := create_event_error (map_error_of_mapResult h)
      simp only [runCall, mapResult] at *
      simp [this]
  | register uid eid =>
      have := register_user_error (map_error_of_mapResult h)
      simp only [runCall, mapResult] at *
      simp [this]
  | unregister uid eid =>
      have := unregister_user_error (map_error_of_mapResult h)
      simp only [runCall, mapResult] at *
      simp [this]
  | userRegistrations uid =>
      have := map_error_of_mapResult h
      simp [get_user_registrations] at this
  | userWaitlists uid =>
      have := map_error_of_mapResult h
      simp [get_user_waitlists] at this
  | eventRegistrations eid =>
      have := event_registrations_error (map_error_of_mapResult h)
      simp only [runCall, mapResult] at *
      simp [this]

/-- C7 witness: registering an unknown user fails with EntityNotFound and the
state and write log are untouched. -/
theorem c7_error_leaves_state_witness :
    (runCall ⟨["A"], []⟩ (.register "X" "E")).1 = .error .entityNotFound ∧
    (runCall ⟨["A"], []⟩ (.register "X" "E")).2.1 = ⟨["A"], []⟩ ∧
    (runCall ⟨["A"], []⟩ (.register "X" "E")).2.2 = [] := by
  have h := c7_error_leaves_state ⟨["A"], []⟩ (.register "X" "E") .entityNotFound (by decide)
  exact ⟨by decide, h.1, h.2⟩

/-- One mutating call of the registration state machine (C1 quantifies over
arbitrary sequences of these). -/
inductive RegOp where
  | register (user_id event_id : String)
  | unregister (user_id event_id : String)

/-- State reached after one register/unregister call (errors leave it as is). -/
def runRegOp (s : SysState) : RegOp → SysState
  | .register u e => (register_user s u e).2.1
  | .unregister u e => (unregister_user s u e).2.1

/-- State reached after a sequence of register/unregister calls. -/
def runRegOps : SysState → List RegOp → SysState
  | s, [] => s
  | s, op :: rest => runRegOps (runRegOp s op) rest

/-- Every stored event respects its capacity bound. -/
def CapInv (s : SysState) : Prop :=
  ∀ p ∈ s.events, (p.2.registered_users.length : Int) ≤ p.2.capacity

lemma capInv_putEvent {s : SysState} {eid : String} {e : Event} (hs : CapInv s)
    (he : (e.registered_users.length : Int) ≤ e.capacity) : CapInv (putEvent s eid e) := by
  intro p hp
  simp only [putEvent] at hp
  obtain ⟨q, hq, hfq⟩ := List.mem_map.mp hp
  by_cases hb : (q.1 == eid) = true
  · rw [if_pos hb] at hfq
    subst hfq
    exact he
  · rw [if_neg hb] at hfq
    subst hfq
    exact hs q hq

lemma capInv_find {s : SysState} (hs : CapInv s) {eid : String} {ev : Event}
    (h : findEvent s eid = some ev) :
    (ev.registered_users.length : Int) ≤ ev.capacity := by
  unfold findEvent at h
  cases hf : s.events.find? (fun p => p.1 == eid) with
  | none => rw [hf] at h; simp at h
  | some q =>
      rw [hf] at h
      simp only [Option.map_some'] at h
      injection h with h
      exact h ▸ hs q (List.mem_of_find?_eq_some hf)

lemma capInv_register (s : SysState) (u eid : String) (hs : CapInv s) :
    CapInv ((register_user s u eid).2.1) := by
  unfold register_user
  split
  · split
    · exact hs
    · rename_i ev heq
      split
      · exact hs
      · split
        · exact hs
        · split
          · rename_i hc
            refine capInv_putEvent hs ?_
            simp only [Event.has_available_capacity, decide_eq_true_eq] at hc
            simp only [List.length_append, List.length_cons, List.length_nil]
            push_cast
            omega
          · split
            · refine capInv_putEvent hs ?_
              show (ev.registered_users.length : Int) ≤ ev.capacity
              exact capInv_find hs heq
            · exact hs
  · exact hs

lemma capInv_unregister (s : SysState) (u eid : String) (hs : CapInv s) :
    CapInv ((unregister_user s u eid).2.1) := by
  unfold unregister_user
  split
  · exact hs
  · rename_i ev heq
    have hev := capInv_find hs heq
    split
    · rename_i hmem
      split
      · refine capInv_putEvent hs ?_
        have := List.length_erase_of_mem hmem
        have hpos := List.length_pos.mpr (List.ne_nil_of_mem hmem)
        simp only [this]
        push_cast
        omega
      · refine capInv_putEvent hs ?_
        have := List.length_erase_of_mem hmem
        have hpos := List.length_pos.mpr (List.ne_nil_of_mem hmem)
        simp only [List.length_append, List.length_cons, List.length_nil, this]
        push_cast
        omega
    · split
      · exact capInv_putEvent hs hev
      · exact hs

lemma capInv_runRegOps (ops : List RegOp) (s : SysState) (hs : CapInv s) :
    CapInv (runRegOps s ops) := by
  induction ops generalizing s with
  | nil => exact hs
  | cons op rest ih =>
      cases op with
      | register u e => exact ih _ (capInv_register s u e hs)
      | unregister u e => exact ih _ (capInv_unregister s u e hs)

/-- C1: starting from a freshly created event (empty `registered_users` and
`waitlist`), after any sequence of `register_user` / `unregister_user` calls,
the event reached always satisfies `len(registered_users) <= capacity`. -/
theorem c1_capacity_invariant (users0 : List String) (eid name : String) (cap : Int)
    (wl : Bool) (ops : List RegOp) (e' : Event) (hcap : 0 < cap)
    (hfind : findEvent (runRegOps (create_event ⟨users0, []⟩ eid name cap wl).2.1 ops) eid =
      some e') :
    (e'.registered_users.length : Int) ≤ e'.capacity := by
  have h0 : CapInv (create_event ⟨users0, []⟩ eid name cap wl).2.1 := by
    unfold create_event mkEvent mkEventFull
    rw [if_neg (by omega)]
    intro p hp
    simp only [List.filter_nil, List.nil_append, List.mem_singleton] at hp
    subst hp
    simp
    omega
  exact capInv_find (capInv_runRegOps ops _ h0) hfind

/-- C1 witness: users A and B on a fresh capacity-1 event; register A,
register B (waitlisted), unregister A (B promoted) — the reached event holds
the bound. -/
theorem c1_capacity_invariant_witness :
    (0 : Int) < 1 ∧
    findEvent (runRegOps (create_event ⟨["A", "B"], []⟩ "E" "N" 1 true).2.1
        [RegOp.register "A" "E", RegOp.register "B" "E", RegOp.unregister "A" "E"]) "E" =
      some ⟨"E", "N", 1, true, ["B"], []⟩ ∧
    (((Event.mk "E" "N" 1 true ["B"] []).registered_users.length : Int) ≤
      (Event.mk "E" "N" 1 true ["B"] []).capacity) :=
  ⟨by decide, by decide,
   c1_capacity_invariant ["A", "B"] "E" "N" 1 true
     [RegOp.register "A" "E", RegOp.register "B" "E", RegOp.unregister "A" "E"]
     (Event.mk "E" "N" 1 true ["B"] []) (by decide) (by decide)⟩

lemma wlRecordsFrom_map_fst (l : List String) (i : Nat) :
    (wlRecordsFrom l i).map Prod.fst = l := by
  induction l generalizing i with
  | nil => rfl
  | cons u rest ih => simp [wlRecordsFrom, ih]

lemma wlRecordsFrom_map_snd (l : List String) (i : Nat) :
    (wlRecordsFrom l i).map Prod.snd = List.range' i l.length := by
  induction l generalizing i with
  | nil => rfl
  | cons u rest ih => simp [wlRecordsFrom, ih, List.range']

lemma fst_mem_of_mem_wlRecordsFrom {l : List String} {i : Nat} {r : String × Nat}
    (h : r ∈ wlRecordsFrom l i) : r.1 ∈ l := by
  have := List.mem_map_of_mem Prod.fst h
  rwa [wlRecordsFrom_map_fst] at this

lemma eraseP_eq_filter_of_nodup (store : List (String × Nat)) (u : String)
    (h : (store.map Prod.fst).Nodup) :
    store.eraseP (fun r => r.1 == u) = store.filter (fun r => !(r.1 == u)) := by
  induction store with
  | nil => rfl
  | cons p rest ih =>
      simp only [List.map_cons, List.nodup_cons] at h
      by_cases hb : (p.1 == u) = true
      · have h1 : List.eraseP (fun r => r.1 == u) (p :: rest) = rest :=
          List.eraseP_cons_of_pos hb
        have h2 : List.filter (fun r => !(r.1 == u)) (p :: rest) =
            List.filter (fun r => !(r.1 == u)) rest :=
          List.filter_cons_of_neg (by simpa using hb)
        have hu : ∀ r ∈ rest, (!(r.1 == u)) = true := by
          intro r hr
          have hne : r.1 ≠ u := by
            intro he
            have hpu : p.1 = u := by simpa using hb
            exact h.1 (by
              rw [hpu, ← he]
              exact List.mem_map_of_mem Prod.fst hr)
          simpa using hne
        rw [h1, h2, List.filter_eq_self.mpr hu]
      · have h1 : List.eraseP (fun r => r.1 == u) (p :: rest) =
            p :: List.eraseP (fun r => r.1 == u) rest :=
          List.eraseP_cons_of_neg (by simpa using hb)
        have h2 : List.filter (fun r => !(r.1 == u)) (p :: rest) =
            p :: List.filter (fun r => !(r.1 == u)) rest :=
          List.filter_cons_of_pos (by simpa using hb)
        rw [h1, h2, ih h.2]

lemma map_fst_filter_nodup (store : List (String × Nat)) (p : String × Nat → Bool)
    (h : (store.map Prod.fst).Nodup) : ((store.filter p).map Prod.fst).Nodup :=
  h.sublist ((List.filter_sublist store).map Prod.fst)

lemma applyWaitWrites_reindex (eid : String) (members : List String) :
    ∀ (store : List (String × Nat)) (i : Nat),
      (store.map Prod.fst).Nodup → members.Nodup →
      applyWaitWrites store (reindexWrites eid members i) =
        store.filter (fun r => !(members.contains r.1)) ++ wlRecordsFrom members i := by
  induction members with
  | nil =>
      intro store i _ _
      simp [applyWaitWrites, reindexWrites, wlRecordsFrom]
  | cons u rest ih =>
      intro store i hstore hmem
      rw [List.nodup_cons] at hmem
      have hfilter : store.eraseP (fun r => r.1 == u) = store.filter (fun r => !(r.1 == u)) :=
        eraseP_eq_filter_of_nodup store u hstore
      have hnotmem : (u, i) ∉ store.filter (fun r => !(r.1 == u)) := by
        intro hin
        have := (List.mem_filter.mp hin).2
        simp at this
      have hstep : applyWaitWrites store (reindexWrites eid (u :: rest) i) =
          applyWaitWrites (store.filter (fun r => !(r.1 == u)) ++ [(u, i)])
            (reindexWrites eid rest (i + 1)) := by
        simp only [reindexWrites, applyWaitWrites, List.foldl_cons, applyWaitWrite, hfilter,
          if_neg hnotmem]
      rw [hstep, ih _ (i + 1) ?nodup hmem.2]
      case nodup =>
        rw [List.map_append, List.nodup_append]
        refine ⟨map_fst_filter_nodup store _ hstore, by simp, ?_⟩
        intro x hx
        obtain ⟨r, hr, hrx⟩ := List.mem_map.mp hx
        have := (List.mem_filter.mp hr).2
        simp only [List.map_cons, List.map_nil, List.mem_singleton]
        intro hxu
        rw [hxu] at hrx
        rw [hrx] at this
        simp at this
      rw [List.filter_append]
      have hsingle : ([(u, i)] : List (String × Nat)).filter (fun r => !(rest.contains r.1)) =
          [(u, i)] := by
        simp [List.filter_cons, hmem.1]
      rw [hsingle, List.filter_filter]
      have hpred : ∀ r : String × Nat,
          ((!(rest.contains r.1)) && (!(r.1 == u))) = (!((u :: rest).contains r.1)) := by
        intro r
        rw [List.contains_cons]
        cases hb : (r.1 == u) <;> cases hc : rest.contains r.1 <;> simp [hb, hc]
      rw [List.filter_congr (fun r _ => hpred r)]
      simp [wlRecordsFrom, List.append_assoc]

lemma filter_not_contains_eq_nil {store : List (String × Nat)} {members : List String}
    (h : ∀ r ∈ store, r.1 ∈ members) :
    store.filter (fun r => !(members.contains r.1)) = [] := by
  rw [List.filter_eq_nil_iff]
  intro r hr
  simp [h r hr]

/-- C3: after a single removal from a waitlist of length N — the unregister of
a waitlisted user, or the promotion of the head while unregistering a
registered user — the stored waitlist records of the remaining N-1 members are
exactly the members in their original relative order carrying positions
0..N-2. -/
theorem c3_reindex_contiguity (s : SysState) (u eid : String) (ev : Event)
    (hfind : findEvent s eid = some ev) (hnd : ev.waitlist.Nodup)
    (hcase : (u ∉ ev.registered_users ∧ u ∈ ev.waitlist) ∨
      (u ∈ ev.registered_users ∧ ev.waitlist ≠ [])) :
    applyWaitWrites (wlRecords ev.waitlist) (unregister_user s u eid).2.2 =
      wlRecords (if u ∈ ev.registered_users then ev.waitlist.tail else ev.waitlist.erase u) ∧
    (applyWaitWrites (wlRecords ev.waitlist) (unregister_user s u eid).2.2).map Prod.snd =
      List.range (ev.waitlist.length - 1) := by
  have hupd : ∀ (st : List (String × Nat)) (l : List GWrite),
      applyWaitWrites st (l ++ [GWrite.updateEvent eid]) = applyWaitWrites st l := by
    intro st l
    rw [applyWaitWrites, applyWaitWrites, List.foldl_append]
    rfl
  have happ : ∀ (st : List (String × Nat)) (l1 l2 : List GWrite),
      applyWaitWrites st (l1 ++ l2) = applyWaitWrites (applyWaitWrites st l1) l2 := by
    intro st l1 l2
    rw [applyWaitWrites, applyWaitWrites, applyWaitWrites, List.foldl_append]
  have hmain : applyWaitWrites (wlRecords ev.waitlist) (unregister_user s u eid).2.2 =
      wlRecords (if u ∈ ev.registered_users then ev.waitlist.tail else ev.waitlist.erase u) := by
    rcases hcase with ⟨hnr, hw⟩ | ⟨hr, hw⟩
    · rw [if_neg hnr]
      have hwnodup : ((wlRecords ev.waitlist).map Prod.fst).Nodup := by
        rw [wlRecords, wlRecordsFrom_map_fst]
        exact hnd
      have hwrites : (unregister_user s u eid).2.2 =
          GWrite.removeFromWaitlist eid u ::
            (reindexWrites eid (ev.waitlist.erase u) 0 ++ [GWrite.updateEvent eid]) := by
        simp [unregister_user, hfind, hnr, hw]
      have hnil : (((wlRecords ev.waitlist).filter (fun r => !(r.1 == u))).filter
          (fun r => !((ev.waitlist.erase u).contains r.1))) = [] := by
        apply filter_not_contains_eq_nil
        intro r hr
        obtain ⟨hr1, hr2⟩ := List.mem_filter.mp hr
        have hmem : r.1 ∈ ev.waitlist := fst_mem_of_mem_wlRecordsFrom hr1
        have hne : r.1 ≠ u := by simpa using hr2
        exact (List.mem_erase_of_ne hne).mpr hmem
      rw [hwrites]
      show applyWaitWrites ((wlRecords ev.waitlist).eraseP (fun r => r.1 == u))
        (reindexWrites eid (ev.waitlist.erase u) 0 ++ [GWrite.updateEvent eid]) =
        wlRecords (ev.waitlist.erase u)
      rw [eraseP_eq_filter_of_nodup _ u hwnodup, hupd,
        applyWaitWrites_reindex eid (ev.waitlist.erase u) _ 0
          (map_fst_filter_nodup _ _ hwnodup) (hnd.erase u),
        hnil, List.nil_append]
      rfl
    · rw [if_pos hr]
      obtain ⟨b, t, hwl⟩ := List.exists_cons_of_ne_nil hw
      have htnodup : t.Nodup := by
        rw [hwl] at hnd
        exact (List.nodup_cons.mp hnd).2
      have hwrites : (unregister_user s u eid).2.2 =
          [GWrite.removeRegistration eid u, GWrite.removeFromWaitlist eid b,
            GWrite.addRegistration eid b] ++ reindexWrites eid t 0 ++
            [GWrite.updateEvent eid] := by
        simp [unregister_user, hfind, hr, hwl]
      have hpre : applyWaitWrites (wlRecords (b :: t))
          [GWrite.removeRegistration eid u, GWrite.removeFromWaitlist eid b,
            GWrite.addRegistration eid b] = wlRecordsFrom t 1 := by
        show (wlRecords (b :: t)).eraseP (fun r => r.1 == b) = wlRecordsFrom t 1
        rw [wlRecords, wlRecordsFrom]
        exact List.eraseP_cons_of_pos (by simp)
      have hn : ((wlRecordsFrom t 1).map Prod.fst).Nodup := by
        rw [wlRecordsFrom_map_fst]
        exact htnodup
      have hnil : ((wlRecordsFrom t 1).filter (fun r => !(t.contains r.1))) = [] :=
        filter_not_contains_eq_nil (fun r hr => fst_mem_of_mem_wlRecordsFrom hr)
      rw [hwl, hwrites, hupd, happ, hpre,
        applyWaitWrites_reindex eid t (wlRecordsFrom t 1) 0 hn htnodup,
        hnil, List.nil_append]
      rfl
  refine ⟨hmain, ?_⟩
  rw [hmain, wlRecords, wlRecordsFrom_map_snd, List.range_eq_range' (ev.waitlist.length - 1)]
  congr 1
  by_cases hu : u ∈ ev.registered_users
  · rw [if_pos hu, List.length_tail]
  · rw [if_neg hu]
    rcases hcase with ⟨_, hw⟩ | ⟨hu2, _⟩
    · exact List.length_erase_of_mem hw
    · exact absurd hu2 hu

/-- C3 witness: event E has waitlist B, C, D; unregistering C leaves records
for B and D at positions 0 and 1, i.e. exactly 0..N-2 in original order. -/
theorem c3_reindex_contiguity_witness :
    findEvent ⟨["B", "C", "D"], [("E", ⟨"E", "N", 1, true, ["A"], ["B", "C", "D"]⟩)]⟩ "E" =
      some ⟨"E", "N", 1, true, ["A"], ["B", "C", "D"]⟩ ∧
    (["B", "C", "D"] : List String).Nodup ∧
    (("C" : String) ∉ (["A"] : List String) ∧ ("C" : String) ∈ (["B", "C", "D"] : List String)) ∧
    (applyWaitWrites (wlRecords ["B", "C", "D"])
        (unregister_user ⟨["B", "C", "D"], [("E", ⟨"E", "N", 1, true, ["A"], ["B", "C", "D"]⟩)]⟩
          "C" "E").2.2 = [("B", 0), ("D", 1)] ∧
      (applyWaitWrites (wlRecords ["B", "C", "D"])
        (unregister_user ⟨["B", "C", "D"], [("E", ⟨"E", "N", 1, true, ["A"], ["B", "C", "D"]⟩)]⟩
          "C" "E").2.2).map Prod.snd = [0, 1]) := by
  have h := c3_reindex_contiguity
    ⟨["B", "C", "D"], [("E", ⟨"E", "N", 1, true, ["A"], ["B", "C", "D"]⟩)]⟩ "C" "E"
    ⟨"E", "N", 1, true, ["A"], ["B", "C", "D"]⟩ (by decide) (by decide)
    (Or.inl ⟨by decide, by decide⟩)
  refine ⟨by decide, by decide, ⟨by decide, by decide⟩, ?_, ?_⟩
  · rw [h.1]
    decide
  · rw [h.2]
    decide

/-- A character as its code point (ASCII byte for the key strings involved);
DynamoDB and Python compare key strings in exactly this order. -/
def charCode (c : Char) : Nat := c.toNat

/-- A string as its list of character codes. -/
def strCodes (str : String) : List Nat := str.data.map charCode

/-- Sort key of a registration record, `f"REG#{user_id}"` (repositories.py
line 273), as character codes: `R`, `E`, `G`, `#` then the user id. -/
def regSK (user_id : String) : List Nat := [82, 69, 71, 35] ++ strCodes user_id

/-- Decimal digits of a natural number, least significant first. -/
def natDigitsRev (n : Nat) : List Nat :=
  if h : n < 10 then [n] else n % 10 :: natDigitsRev (n / 10)
termination_by n
decreasing_by exact Nat.div_lt_self (by omega) (by omega)

/-- Python `f"{n:05d}"` as character codes: for n < 100000 exactly the five
zero-padded decimal digits (each digit obtained by repeated division by ten),
otherwise the plain decimal digits (width exceeded, no padding). -/
def fmt05 (n : Nat) : List Nat :=
  if n < 100000 then
    [48 + n / 10 / 10 / 10 / 10, 48 + n / 10 / 10 / 10 % 10, 48 + n / 10 / 10 % 10,
     48 + n / 10 % 10, 48 + n % 10]
  else (natDigitsRev n).reverse.map (fun d => 48 + d)

/-- Sort key of a waitlist record, `f"WAIT#{position:05d}#{user_id}"`
(repositories.py line 294), as character codes: `W`, `A`, `I`, `T`, `#`,
the padded position, `#`, the user id. -/
def waitSK (position : Nat) (user_id : String) : List Nat :=
  [87, 65, 73, 84, 35] ++ fmt05 position ++ [35] ++ strCodes user_id

/-- The event metadata item written by `EventRepository.create`
(repositories.py lines 103-114). -/
structure MetaItem where
  event_id : String
  name : String
  capacity : Int
  waitlist_enabled : Bool
  registered_count : Nat
  waitlist_count : Nat
  deriving DecidableEq

/-- The slice of the DynamoDB table holding one event: the metadata item and
the membership items, each keyed by its sort key and carrying its user id. -/
structure EventPartition where
  metadata : Option MetaItem
  members : List (List Nat × String)
  deriving DecidableEq

def emptyPartition : EventPartition := ⟨none, []⟩

/-- `put_item` on a membership record: replace the item with the same sort
key if present, otherwise add the item. -/
def putMember (p : EventPartition) (sk : List Nat) (user_id : String) : EventPartition :=
  if p.members.any (fun r => r.1 == sk) then
    { p with members := p.members.map fun r => if r.1 == sk then (sk, user_id) else r }
  else
    { p with members := p.members ++ [(sk, user_id)] }

/-- `EventRepository.create` (repositories.py lines 94-124): put the metadata
item with denormalized counts, then one `REG#` item per registered user, then
one `WAIT#` item per waitlist entry with its enumerated position. -/
def repoCreate (e : Event) (p : EventPartition) : EventPartition :=
  let p1 : EventPartition :=
    { p with metadata := some ⟨e.event_id, e.name, e.capacity, e.waitlist_enabled,
        e.registered_users.length, e.waitlist.length⟩ }
  let p2 := e.registered_users.foldl (fun acc u => putMember acc (regSK u) u) p1
  (wlRecords e.waitlist).foldl (fun acc r => putMember acc (waitSK r.2 r.1) r.1) p2

/-- Lexicographic strict comparison of key strings (as code lists): the order
in which DynamoDB returns items of one partition and in which Python compares
the `SK` strings. -/
def lexLtN : List Nat → List Nat → Bool
  | _, [] => false
  | [], _ :: _ => true
  | a :: as, b :: bs => if a < b then true else if b < a then false else lexLtN as bs

/-- Non-strict key comparison used for sorting. -/
def skLeB (a b : List Nat) : Bool := !(lexLtN b a)

/-- Membership items sorted ascending by sort key: the order a DynamoDB query
returns them and `sorted(..., key=lambda x: x["SK"])` re-establishes. -/
def memberSort (l : List (List Nat × String)) : List (List Nat × String) :=
  List.insertionSort (fun x y => skLeB x.1 y.1 = true) l

/-- `EventRepository.get` (repositories.py lines 126-161): if the metadata
item is absent return none; otherwise rebuild the Event from the `REG#` items
and the `WAIT#` items in sort-key order (the Python `Event(...)` call re-runs
its validation). -/
def repoGet (p : EventPartition) : Option (Except RegError Event) :=
  p.metadata.map fun m =>
    mkEventFull m.event_id m.name m.capacity m.waitlist_enabled
      ((memberSort (p.members.filter fun r => [82, 69, 71, 35].isPrefixOf r.1)).map (·.2))
      ((memberSort (p.members.filter fun r => [87, 65, 73, 84, 35].isPrefixOf r.1)).map (·.2))

/-- Users sorted by the lexicographic order of their ids (code points): the
order in which `get` returns the registered users. -/
def sortUsersLex (l : List String) : List String :=
  List.insertionSort (fun u v => skLeB (strCodes u) (strCodes v) = true) l


lemma charCode_inj : Function.Injective charCode := by
  intro c1 c2 h
  have h2 : Char.ofNat c1.toNat = Char.ofNat c2.toNat := congrArg Char.ofNat h
  rwa [Char.ofNat_toNat, Char.ofNat_toNat] at h2

lemma strCodes_inj : Function.Injective strCodes := by
  intro s t h
  have hd : s.data = t.data := (List.map_injective_iff.mpr charCode_inj) h
  cases s
  cases t
  exact congrArg String.mk hd

lemma regSK_inj : Function.Injective regSK := by
  intro u v h
  exact strCodes_inj (List.append_cancel_left h)

lemma lexLtN_irrefl : ∀ a : List Nat, lexLtN a a = false := by
  intro a
  induction a with
  | nil => rfl
  | cons x xs ih => simp [lexLtN, ih]

lemma lexLtN_cons_iff {x y : Nat} {xs ys : List Nat} :
    lexLtN (x :: xs) (y :: ys) = true ↔ x < y ∨ (x = y ∧ lexLtN xs ys = true) := by
  simp only [lexLtN]
  split_ifs with h1 h2
  · simp [h1]
  · simp
    omega
  · have hxy : x = y := by omega
    simp [hxy]

lemma lexLtN_asymm : ∀ {a b : List Nat}, lexLtN a b = true → lexLtN b a = false := by
  intro a
  induction a with
  | nil =>
      intro b h
      cases b with
      | nil => simpa [lexLtN] using h
      | cons y ys => rfl
  | cons x xs ih =>
      intro b h
      cases b with
      | nil => simp [lexLtN] at h
      | cons y ys =>
          rcases lexLtN_cons_iff.mp h with hlt | ⟨heq, htail⟩
          · rw [← Bool.not_eq_true]
            intro hc
            rcases lexLtN_cons_iff.mp hc with hlt2 | ⟨heq2, _⟩ <;> omega
          · rw [← Bool.not_eq_true]
            intro hc
            rcases lexLtN_cons_iff.mp hc with hlt2 | ⟨_, htail2⟩
            · omega
            · rw [ih htail] at htail2
              exact Bool.false_ne_true htail2

lemma lexLtN_append_left : ∀ (p a b : List Nat), lexLtN (p ++ a) (p ++ b) = lexLtN a b := by
  intro p
  induction p with
  | nil => intro a b; rfl
  | cons x xs ih => intro a b; simp [lexLtN, ih]

lemma lexLtN_append_of_lt : ∀ {a b : List Nat}, lexLtN a b = true → a.length = b.length →
    ∀ (s t : List Nat), lexLtN (a ++ s) (b ++ t) = true := by
  intro a
  induction a with
  | nil =>
      intro b h hlen s t
      cases b with
      | nil => simp [lexLtN] at h
      | cons y ys => simp at hlen
  | cons x xs ih =>
      intro b h hlen s t
      cases b with
      | nil => simp at hlen
      | cons y ys =>
          simp only [List.length_cons, Nat.add_right_cancel_iff] at hlen
          rcases lexLtN_cons_iff.mp h with hlt | ⟨heq, htail⟩
          · exact lexLtN_cons_iff.mpr (Or.inl hlt)
          · exact lexLtN_cons_iff.mpr (Or.inr ⟨heq, ih htail hlen s t⟩)

lemma fmt05_lt {i j : Nat} (hij : i < j) (hj : j < 100000) :
    lexLtN (fmt05 i) (fmt05 j) = true := by
  have hi : i < 100000 := by omega
  rw [fmt05, fmt05, if_pos hi, if_pos hj]
  rw [lexLtN_cons_iff]
  simp only [lexLtN_cons_iff]
  rw [show lexLtN [] [] = false from rfl]
  omega

lemma fmt05_length {n : Nat} (h : n < 100000) : (fmt05 n).length = 5 := by
  rw [fmt05, if_pos h]
  rfl

lemma fmt05_inj {i j : Nat} (hi : i < 100000) (hj : j < 100000) (h : fmt05 i = fmt05 j) :
    i = j := by
  rcases Nat.lt_trichotomy i j with hlt | heq | hgt
  · have := fmt05_lt hlt hj
    rw [h, lexLtN_irrefl] at this
    exact absurd this (by simp)
  · exact heq
  · have := fmt05_lt hgt hi
    rw [h, lexLtN_irrefl] at this
    exact absurd this (by simp)

lemma waitSK_lt {i j : Nat} (u v : String) (hij : i < j) (hj : j < 100000) :
    lexLtN (waitSK i u) (waitSK j v) = true := by
  rw [waitSK, waitSK]
  simp only [List.append_assoc]
  rw [lexLtN_append_left]
  exact lexLtN_append_of_lt (fmt05_lt hij hj)
    (by rw [fmt05_length (by omega), fmt05_length hj]) _ _

lemma waitSK_inj {i j : Nat} {u v : String} (hi : i < 100000) (hj : j < 100000)
    (h : waitSK i u = waitSK j v) : i = j ∧ u = v := by
  rw [waitSK, waitSK] at h
  simp only [List.append_assoc] at h
  have h1 := List.append_cancel_left h
  have h2 := List.append_inj h1 (by rw [fmt05_length hi, fmt05_length hj])
  exact ⟨fmt05_inj hi hj h2.1, strCodes_inj (List.append_cancel_left h2.2)⟩

lemma regSK_ne_waitSK (u : String) (p : Nat) (v : String) : regSK u ≠ waitSK p v := by
  intro h
  rw [regSK, waitSK] at h
  simp at h

lemma foldl_putMember_fresh : ∀ (l : List (List Nat × String)) (p : EventPartition),
    (∀ r ∈ l, ∀ q ∈ p.members, q.1 ≠ r.1) → (l.map Prod.fst).Nodup →
    l.foldl (fun acc r => putMember acc r.1 r.2) p = { p with members := p.members ++ l } := by
  intro l
  induction l with
  | nil => intro p _ _; simp
  | cons r rest ih =>
      intro p hfresh hnd
      rw [List.map_cons, List.nodup_cons] at hnd
      have hany : p.members.any (fun q => q.1 == r.1) = false := by
        rw [← Bool.not_eq_true, List.any_eq_true]
        rintro ⟨q, hq, hbeq⟩
        exact hfresh r (List.mem_cons_self r rest) q hq (by simpa using hbeq)
      have hput : putMember p r.1 r.2 = { p with members := p.members ++ [r] } := by
        rw [putMember, if_neg (by simp [hany])]
      have hfresh2 : ∀ r' ∈ rest, ∀ q ∈ (p.members ++ [r]), q.1 ≠ r'.1 := by
        intro r' hr' q hq
        rcases List.mem_append.mp hq with hq1 | hq2
        · exact hfresh r' (List.mem_cons_of_mem _ hr') q hq1
        · rw [List.mem_singleton] at hq2
          subst hq2
          intro hkey
          exact hnd.1 (hkey ▸ List.mem_map_of_mem Prod.fst hr')
      rw [List.foldl_cons, hput,
        ih { p with members := p.members ++ [r] } hfresh2 hnd.2]
      simp

lemma snd_lt_of_mem_wlRecords {l : List String} {r : String × Nat} (h : r ∈ wlRecords l) :
    r.2 < l.length := by
  have hm := List.mem_map_of_mem Prod.snd h
  rw [wlRecords, wlRecordsFrom_map_snd] at hm
  have := List.mem_range'_1.mp hm
  omega

lemma wlRecords_nodup {l : List String} : (wlRecords l).Nodup := by
  apply List.Nodup.of_map Prod.snd
  rw [wlRecords, wlRecordsFrom_map_snd]
  exact List.nodup_range' _ _

lemma repoCreate_members (e : Event) (hreg : e.registered_users.Nodup)
    (hwlen : e.waitlist.length ≤ 100000) :
    repoCreate e emptyPartition =
      { metadata := some ⟨e.event_id, e.name, e.capacity, e.waitlist_enabled,
          e.registered_users.length, e.waitlist.length⟩,
        members := e.registered_users.map (fun u => (regSK u, u)) ++
          (wlRecords e.waitlist).map (fun r => (waitSK r.2 r.1, r.1)) } := by
  have hregnodup : ((e.registered_users.map (fun u => (regSK u, u))).map Prod.fst).Nodup := by
    rw [List.map_map]
    exact hreg.map (fun u v h => regSK_inj h)
  have hwaitnodup : (((wlRecords e.waitlist).map
      (fun r => (waitSK r.2 r.1, r.1))).map Prod.fst).Nodup := by
    rw [List.map_map]
    apply List.Nodup.map_on ?inj wlRecords_nodup
    case inj =>
      intro x hx y hy hxy
      simp only [Function.comp] at hxy
      have hxb : x.2 < 100000 := by
        have := snd_lt_of_mem_wlRecords hx
        omega
      have hyb : y.2 < 100000 := by
        have := snd_lt_of_mem_wlRecords hy
        omega
      obtain ⟨h1, h2⟩ := waitSK_inj hxb hyb hxy
      exact Prod.ext h2 h1
  have hmeta : ({ emptyPartition with metadata := some ⟨e.event_id, e.name, e.capacity,
      e.waitlist_enabled, e.registered_users.length, e.waitlist.length⟩ } : EventPartition) =
      ⟨some ⟨e.event_id, e.name, e.capacity, e.waitlist_enabled,
        e.registered_users.length, e.waitlist.length⟩, []⟩ := rfl
  have hstep1 : e.registered_users.foldl (fun acc u => putMember acc (regSK u) u)
      ⟨some ⟨e.event_id, e.name, e.capacity, e.waitlist_enabled,
        e.registered_users.length, e.waitlist.length⟩, []⟩ =
      ⟨some ⟨e.event_id, e.name, e.capacity, e.waitlist_enabled,
        e.registered_users.length, e.waitlist.length⟩,
       e.registered_users.map (fun u => (regSK u, u))⟩ := by
    rw [show e.registered_users.foldl (fun acc u => putMember acc (regSK u) u)
        (⟨some ⟨e.event_id, e.name, e.capacity, e.waitlist_enabled,
          e.registered_users.length, e.waitlist.length⟩, []⟩ : EventPartition) =
        (e.registered_users.map (fun u => (regSK u, u))).foldl
          (fun acc r => putMember acc r.1 r.2)
          ⟨some ⟨e.event_id, e.name, e.capacity, e.waitlist_enabled,
            e.registered_users.length, e.waitlist.length⟩, []⟩ from
      (List.foldl_map (fun u => (regSK u, u)) (fun acc r => putMember acc r.1 r.2)
        e.registered_users _).symm]
    rw [foldl_putMember_fresh _ _ (by intro r hr q hq; simp at hq) hregnodup]
    simp
  have hfreshw : ∀ r ∈ (wlRecords e.waitlist).map (fun r => (waitSK r.2 r.1, r.1)),
      ∀ q ∈ e.registered_users.map (fun u => (regSK u, u)), q.1 ≠ r.1 := by
    intro r hr q hq
    obtain ⟨w, _, hw⟩ := List.mem_map.mp hr
    obtain ⟨u, _, hu⟩ := List.mem_map.mp hq
    rw [← hw, ← hu]
    exact regSK_ne_waitSK u w.2 w.1
  have hstep2 : (wlRecords e.waitlist).foldl
      (fun acc r => putMember acc (waitSK r.2 r.1) r.1)
      ⟨some ⟨e.event_id, e.name, e.capacity, e.waitlist_enabled,
        e.registered_users.length, e.waitlist.length⟩,
       e.registered_users.map (fun u => (regSK u, u))⟩ =
      ⟨some ⟨e.event_id, e.name, e.capacity, e.waitlist_enabled,
        e.registered_users.length, e.waitlist.length⟩,
       e.registered_users.map (fun u => (regSK u, u)) ++
         (wlRecords e.waitlist).map (fun r => (waitSK r.2 r.1, r.1))⟩ := by
    rw [show (wlRecords e.waitlist).foldl (fun acc r => putMember acc (waitSK r.2 r.1) r.1)
        (⟨some ⟨e.event_id, e.name, e.capacity, e.waitlist_enabled,
          e.registered_users.length, e.waitlist.length⟩,
         e.registered_users.map (fun u => (regSK u, u))⟩ : EventPartition) =
        ((wlRecords e.waitlist).map (fun r => (waitSK r.2 r.1, r.1))).foldl
          (fun acc r => putMember acc r.1 r.2)
          ⟨some ⟨e.event_id, e.name, e.capacity, e.waitlist_enabled,
            e.registered_users.length, e.waitlist.length⟩,
           e.registered_users.map (fun u => (regSK u, u))⟩ from
      (List.foldl_map (fun r : String × Nat => (waitSK r.2 r.1, r.1))
        (fun acc r => putMember acc r.1 r.2) (wlRecords e.waitlist) _).symm]
    rw [foldl_putMember_fresh _ _ hfreshw hwaitnodup]
  rw [repoCreate, hmeta, hstep1, hstep2]

lemma pairwise_snd_wlRecordsFrom (l : List String) (i : Nat) :
    (wlRecordsFrom l i).Pairwise (fun a b => a.2 < b.2) := by
  induction l generalizing i with
  | nil => exact List.Pairwise.nil
  | cons u rest ih =>
      rw [wlRecordsFrom, List.pairwise_cons]
      refine ⟨?_, ih (i + 1)⟩
      intro b hb
      have hm := List.mem_map_of_mem Prod.snd hb
      rw [wlRecordsFrom_map_snd] at hm
      have := List.mem_range'_1.mp hm
      show i < b.2
      omega

lemma sorted_waitItems (l : List String) (hlen : l.length ≤ 100000) :
    ((wlRecords l).map (fun r => (waitSK r.2 r.1, r.1))).Pairwise
      (fun x y : List Nat × String => skLeB x.1 y.1 = true) := by
  rw [List.pairwise_map]
  apply List.Pairwise.imp_of_mem ?imp (pairwise_snd_wlRecordsFrom l 0)
  case imp =>
    intro a b ha hb hab
    have hbb : b.2 < 100000 := by
      have := snd_lt_of_mem_wlRecords (show b ∈ wlRecords l from hb)
      omega
    have hlt := waitSK_lt a.1 b.1 hab hbb
    rw [skLeB, lexLtN_asymm hlt]
    rfl

lemma orderedInsert_regItem (u : String) (l : List String) :
    List.orderedInsert (fun x y : List Nat × String => skLeB x.1 y.1 = true)
      (regSK u, u) (l.map (fun v => (regSK v, v))) =
      (List.orderedInsert (fun a b : String => skLeB (strCodes a) (strCodes b) = true) u
        l).map (fun v => (regSK v, v)) := by
  induction l with
  | nil => rfl
  | cons b bs ih =>
      have hagree : (skLeB (regSK u) (regSK b) = true) ↔
          (skLeB (strCodes u) (strCodes b) = true) := by
        rw [skLeB, skLeB, regSK, regSK, lexLtN_append_left]
      by_cases hc : skLeB (strCodes u) (strCodes b) = true
      · simp [List.orderedInsert, hc, hagree.mpr hc]
      · have hc2 : ¬ (skLeB (regSK u) (regSK b) = true) := fun h => hc (hagree.mp h)
        simp [List.orderedInsert, hc, hc2, ih]

lemma insertionSort_regItems (l : List String) :
    memberSort (l.map (fun v => (regSK v, v))) =
      (sortUsersLex l).map (fun v => (regSK v, v)) := by
  induction l with
  | nil => rfl
  | cons b bs ih =>
      rw [memberSort, sortUsersLex] at *
      simp only [List.map_cons, List.insertionSort, ih, orderedInsert_regItem]

lemma isPrefixOf_regSK (u : String) :
    ([82, 69, 71, 35] : List Nat).isPrefixOf (regSK u) = true :=
  List.isPrefixOf_iff_prefix.mpr (List.prefix_append _ _)

lemma not_isPrefixOf_reg_wait (p : Nat) (v : String) :
    ([82, 69, 71, 35] : List Nat).isPrefixOf (waitSK p v) = false := by
  rw [waitSK]
  simp [List.isPrefixOf]

lemma isPrefixOf_waitSK (p : Nat) (v : String) :
    ([87, 65, 73, 84, 35] : List Nat).isPrefixOf (waitSK p v) = true := by
  rw [waitSK]
  simp only [List.append_assoc]
  exact List.isPrefixOf_iff_prefix.mpr (List.prefix_append _ _)

lemma not_isPrefixOf_wait_reg (u : String) :
    ([87, 65, 73, 84, 35] : List Nat).isPrefixOf (regSK u) = false := by
  rw [regSK]
  simp [List.isPrefixOf]

/-- C8 as amended: for every valid event (positive capacity, no duplicate
registered users) whose waitlist positions fit the five-digit zero-padded
encoding (length ≤ 100000), `create` followed by `get` returns an Event with
the same event_id, name, capacity and waitlist_enabled, the same waitlist in
FIFO order — but `registered_users` comes back sorted lexicographically by
user id, not in admission order. -/
theorem c8_roundtrip_amended (e : Event) (hcap : 0 < e.capacity)
    (hreg : e.registered_users.Nodup) (hwlen : e.waitlist.length ≤ 100000) :
    repoGet (repoCreate e emptyPartition) =
      some (.ok { e with registered_users := sortUsersLex e.registered_users }) := by
  rw [repoCreate_members e hreg hwlen, repoGet]
  have hall1 : ∀ r ∈ e.registered_users.map (fun u => (regSK u, u)),
      ([82, 69, 71, 35] : List Nat).isPrefixOf r.1 := by
    intro r hr
    obtain ⟨u, _, hu⟩ := List.mem_map.mp hr
    rw [← hu]
    exact isPrefixOf_regSK u
  have hnone1 : ∀ r ∈ (wlRecords e.waitlist).map (fun w => (waitSK w.2 w.1, w.1)),
      ¬ (([82, 69, 71, 35] : List Nat).isPrefixOf r.1 = true) := by
    intro r hr
    obtain ⟨w, _, hw⟩ := List.mem_map.mp hr
    rw [← hw]
    show ¬ (([82, 69, 71, 35] : List Nat).isPrefixOf (waitSK w.2 w.1) = true)
    simp [not_isPrefixOf_reg_wait]
  have hnone2 : ∀ r ∈ e.registered_users.map (fun u => (regSK u, u)),
      ¬ (([87, 65, 73, 84, 35] : List Nat).isPrefixOf r.1 = true) := by
    intro r hr
    obtain ⟨u, _, hu⟩ := List.mem_map.mp hr
    rw [← hu]
    show ¬ (([87, 65, 73, 84, 35] : List Nat).isPrefixOf (regSK u) = true)
    simp [not_isPrefixOf_wait_reg]
  have hall2 : ∀ r ∈ (wlRecords e.waitlist).map (fun w => (waitSK w.2 w.1, w.1)),
      ([87, 65, 73, 84, 35] : List Nat).isPrefixOf r.1 := by
    intro r hr
    obtain ⟨w, _, hw⟩ := List.mem_map.mp hr
    rw [← hw]
    exact isPrefixOf_waitSK w.2 w.1
  rw [List.filter_append, List.filter_append,
    List.filter_eq_self.mpr hall1, List.filter_eq_nil_iff.mpr hnone1, List.append_nil,
    List.filter_eq_nil_iff.mpr hnone2, List.filter_eq_self.mpr hall2, List.nil_append,
    insertionSort_regItems,
    show memberSort ((wlRecords e.waitlist).map (fun w => (waitSK w.2 w.1, w.1))) =
        (wlRecords e.waitlist).map (fun w => (waitSK w.2 w.1, w.1)) from
      List.Sorted.insertionSort_eq (sorted_waitItems e.waitlist hwlen)]
  simp only [List.map_map, Option.map_some']
  have hm1 : (sortUsersLex e.registered_users).map
      ((fun x : List Nat × String => x.2) ∘ (fun v => (regSK v, v))) =
      sortUsersLex e.registered_users := by
    rw [show ((fun x : List Nat × String => x.2) ∘ (fun v => (regSK v, v))) =
      fun v : String => v from rfl, List.map_id']
  have hm2 : (wlRecords e.waitlist).map
      ((fun x : List Nat × String => x.2) ∘ (fun w : String × Nat => (waitSK w.2 w.1, w.1))) =
      e.waitlist := by
    rw [show ((fun x : List Nat × String => x.2) ∘
      (fun w : String × Nat => (waitSK w.2 w.1, w.1))) = fun w : String × Nat => w.1 from rfl]
    exact wlRecordsFrom_map_fst e.waitlist 0
  rw [hm1, hm2, mkEventFull, if_neg (by omega)]

/-- An order-sensitive valid event: capacity 2, registered users inserted as
b then a. -/
def outOfOrderEvent : Event :=
  { event_id := "E", name := "Gala", capacity := 2, waitlist_enabled := false,
    registered_users := ["b", "a"], waitlist := [] }

/-- C8 counterexample: `outOfOrderEvent` satisfies all the spec's event
invariants, yet create followed by get does not return it — the registered
users come back as ["a", "b"], sorted by user id instead of admission order. -/
theorem c8_roundtrip_counterexample :
    repoGet (repoCreate outOfOrderEvent emptyPartition) ≠ some (.ok outOfOrderEvent) ∧
    repoGet (repoCreate outOfOrderEvent emptyPartition) =
      some (.ok { outOfOrderEvent with registered_users := ["a", "b"] }) := by
  constructor
  · decide
  · decide

/-- C8 witness: a concrete valid event round-trips to itself with the
registered users sorted. -/
theorem c8_roundtrip_amended_witness :
    (0 : Int) < 2 ∧
    (["b", "a"] : List String).Nodup ∧
    (["w2", "w1"] : List String).length ≤ 100000 ∧
    repoGet (repoCreate ⟨"E", "Gala", 2, true, ["b", "a"], ["w2", "w1"]⟩ emptyPartition) =
      some (.ok ⟨"E", "Gala", 2, true, ["a", "b"], ["w2", "w1"]⟩) := by
  have h := c8_roundtrip_amended ⟨"E", "Gala", 2, true, ["b", "a"], ["w2", "w1"]⟩
    (by decide) (by decide) (by decide)
  refine ⟨by decide, by decide, by decide, ?_⟩
  rw [h]
  decide
